import Mathlib

/-!
# Vector subsetting (`inst/include/Rcpp/vector/Subsetter.h`)

A shallow embedding of `Rcpp::Subsetter` and theorems about it.

* A vector is its element list together with the value of its `names`
  attribute (`none` when `Rf_getAttrib(., R_NamesSymbol)` is `R_NilValue`).
* `int` values are integers; `NA_INTEGER` and `NA_LOGICAL` are `INT_MIN`.
  The one `int` subtraction that can leave the 32-bit range (`idx[i] - 1`)
  is taken modulo `2^32`.
* `stop(msg)` is the error side of `Except`.
* `operator[]` is unchecked in the source.  A read inside the vector gives the
  stored value; a read outside gives whatever the `Host` says the adjacent
  memory holds, so that every function stays total and every theorem holds
  for all such memory contents.
* Sizes are `int` in the source; vectors are assumed shorter than `2^31`.
-/

namespace Rcpp

/-- An element of a character vector: a string, or `NA_STRING` (`none`). -/
abbrev CHARSXP := Option String

/-- The missing string. -/
def NA_STRING : CHARSXP := none

/-- The missing integer, `INT_MIN`. -/
def NA_INTEGER : Int := -2147483648

/-- The missing logical, `INT_MIN`. -/
def NA_LOGICAL : Int := -2147483648

/-- The four calls of `stop` in `Subsetter.h`. -/
inductive Stop where
  /-- Raised with "subsetting with a LogicalVector requires both vectors to be of equal size". -/
  | sizeMismatch
  /-- Raised with "can't subset a nameless vector using a CharacterVector". -/
  | nameless
  /-- Raised with "Index error: tried to index < 0". -/
  | indexBelow
  /-- Raised with "Index error: tried to index above vector size". -/
  | indexAbove
  deriving DecidableEq, Repr

deriving instance DecidableEq for Except

/-- The message passed to `stop`. -/
def Stop.what : Stop → String
  | .sizeMismatch => "subsetting with a LogicalVector requires both vectors to be of equal size"
  | .nameless => "can\x27t subset a nameless vector using a CharacterVector"
  | .indexBelow => "Index error: tried to index < 0"
  | .indexAbove => "Index error: tried to index above vector size"

/-- The two "Index error" stops of the integer `subset_impl`. -/
def Stop.isIndexError : Stop → Bool
  | .indexBelow => true
  | .indexAbove => true
  | _ => false

/-- A `Vector<RTYPE, StoragePolicy>`: the elements and the `names` attribute. -/
structure Vector (α : Type) where
  data : List α
  names : Option (List CHARSXP)
  deriving DecidableEq, Repr

/-- The result of `size()`. -/
def Vector.size {α : Type} (v : Vector α) : Nat := v.data.length

/-- The data-model invariant: a `names` attribute is as long as its vector. -/
def Vector.WellFormed {α : Type} (v : Vector α) : Prop :=
  ∀ nm, v.names = some nm → nm.length = v.data.length

/-- The value of `Vector<RTYPE, StoragePolicy>(0)`: no elements, no attributes. -/
def Vector.empty {α : Type} : Vector α := ⟨[], none⟩

/-- What the source takes from outside `Subsetter.h`. -/
structure Host (α : Type) where
  /-- True unless `RCPP_NO_BOUNDS_CHECK` is defined. -/
  boundsCheck : Bool
  /-- The element kind's missing value, `traits::get_na<RTYPE>()`. -/
  na : α
  /-- The sugar function `match(x, table)`. -/
  lookup : List CHARSXP → List CHARSXP → List Int
  /-- What `this_[k]` reads when `k` is outside `this_`. -/
  eltOutside : Int → α
  /-- What `names[k]` reads when `k` is outside `names`. -/
  nameOutside : Int → CHARSXP
  /-- What `idx[k]` reads when `k` is outside `idx`. -/
  idxOutside : Int → Int
  /-- The content of cell `i` of a `no_init` character vector before any assignment. -/
  nameNoInit : Nat → CHARSXP

/-- Unchecked `v[k]`: the stored element inside the vector, `outside k` elsewhere. -/
def rawAt {β : Type} (outside : Int → β) (v : List β) (k : Int) : β :=
  if 0 ≤ k ∧ k < (v.length : Int) then v.getD k.toNat (outside k) else outside k

/-- The `int` result of `a - b` on a two's complement machine. -/
def sub32 (a b : Int) : Int := (a - b + 2147483648) % 4294967296 - 2147483648

/-- The first loop of `which_na`, from position `i` on: the values pushed on `output`. -/
def which_na_from : List Int → Int → List Int
  | [], _ => []
  | xi :: rest, i =>
    if xi = NA_LOGICAL then NA_INTEGER :: which_na_from rest (i + 1)
    else if xi ≠ 0 then i :: which_na_from rest (i + 1)
    else which_na_from rest (i + 1)

/-- The function `which_na`: the second loop copies `output` into `output_`. -/
def which_na (x : List Int) : List Int := which_na_from x 0

/-- One iteration of the element loop of the integer `subset_impl`: the value
stored in `output[i]`, or the `stop`. -/
def elementStep {α : Type} (h : Host α) (this_ : Vector α) (xi : Int) : Except Stop α :=
  if xi = NA_INTEGER then .ok h.na
  else if h.boundsCheck && decide (xi < 0) then .error .indexBelow
  else if h.boundsCheck && decide (xi > (this_.size : Int) - 1) then .error .indexAbove
  else .ok (rawAt h.eltOutside this_.data xi)

/-- The element loop of the integer `subset_impl`, left to right. -/
def elementLoop {α : Type} (h : Host α) (this_ : Vector α) : List Int → Except Stop (List α)
  | [] => .ok []
  | xi :: rest =>
    match elementStep h this_ xi with
    | .error e => .error e
    | .ok v =>
      match elementLoop h this_ rest with
      | .error e => .error e
      | .ok vs => .ok (v :: vs)

/-- One iteration of the names loop of the integer `subset_impl`: the content
of `outnames[i]` after the iteration. -/
def nameStep {α : Type} (h : Host α) (this_ : Vector α) (thisnames : List CHARSXP)
    (i : Nat) (xi : Int) : CHARSXP :=
  if xi = NA_INTEGER then NA_STRING
  else if h.boundsCheck && decide (xi > (this_.size : Int) - 1) then NA_STRING
  else if xi ≥ 0 then rawAt h.nameOutside thisnames xi
  else h.nameNoInit i

/-- The names loop of the integer `subset_impl`, from position `i` on. -/
def nameLoop {α : Type} (h : Host α) (this_ : Vector α) (thisnames : List CHARSXP) :
    Nat → List Int → List CHARSXP
  | _, [] => []
  | i, xi :: rest => nameStep h this_ thisnames i xi :: nameLoop h this_ thisnames (i + 1) rest

/-- Subsetting for integers (0-based): `subset_impl(this_, Vector<INTSXP>)`. -/
def subset_impl_int {α : Type} (h : Host α) (this_ : Vector α) (x : List Int) :
    Except Stop (Vector α) :=
  if x.length = 0 then .ok this_
  else
    match elementLoop h this_ x with
    | .error e => .error e
    | .ok output =>
      match this_.names with
      | none => .ok ⟨output, none⟩
      | some thisnames => .ok ⟨output, some (nameLoop h this_ thisnames 0 x)⟩

/-- Subsetting for logicals: `subset_impl(this_, Vector<LGLSXP>)`. -/
def subset_impl_lgl {α : Type} (h : Host α) (this_ : Vector α) (x : List Int) :
    Except Stop (Vector α) :=
  if this_.size ≠ x.length then .error .sizeMismatch
  else
    let tmp := which_na x
    if tmp.length = 0 then .ok Vector.empty
    else subset_impl_int h this_ tmp

/-- Subsetting for characters: `subset_impl(this_, Vector<STRSXP>)`.  The value
returned is what the embedding gives; when `output` is `this_` itself (empty
`idxm1`), the assignment to `output.attr("names")` also reaches the caller's
vector, which is not shown here. -/
def subset_impl_str {α : Type} (h : Host α) (this_ : Vector α) (x : List CHARSXP) :
    Except Stop (Vector α) :=
  match this_.names with
  | none => .error .nameless
  | some names =>
    let idx := h.lookup x names
    let idxm1 := idx.map (fun v => sub32 v 1)
    match subset_impl_int h this_ idxm1 with
    | .error e => .error e
    | .ok output =>
      let n := output.size
      if n = 0 then .ok Vector.empty
      else
        let out_names := (List.range n).map
          (fun (i : Nat) => rawAt h.nameOutside names (sub32 (rawAt h.idxOutside idx (i : Int)) 1))
        .ok ⟨output.data, some out_names⟩

/-- Subsetting for numerics: `subset_impl(this_, Vector<REALSXP>)`, which coerces
with `as< Vector<INTSXP> >`, given here element by element as `toInt`. -/
def subset_impl_real {α ρ : Type} (h : Host α) (toInt : ρ → Int) (this_ : Vector α)
    (x : List ρ) : Except Stop (Vector α) :=
  subset_impl_int h this_ (x.map toInt)

/-- The index argument `other` of a `Subsetter`, by its vector type; `ρ` is the
type of the elements of a numeric vector. -/
inductive Index (ρ : Type) where
  | lgl (x : List Int)
  | str (x : List CHARSXP)
  | int (x : List Int)
  | real (x : List ρ)

/-- The length of the index vector. -/
def Index.length {ρ : Type} : Index ρ → Nat
  | .lgl x => x.length
  | .str x => x.length
  | .int x => x.length
  | .real x => x.length

/-- The conversion `operator VECTOR()`: `subset_impl(vec, other)`, resolved on
the type of `other`. -/
def subset {α ρ : Type} (h : Host α) (toInt : ρ → Int) (vec : Vector α) :
    Index ρ → Except Stop (Vector α)
  | .lgl x => subset_impl_lgl h vec x
  | .str x => subset_impl_str h vec x
  | .int x => subset_impl_int h vec x
  | .real x => subset_impl_real h toInt vec x

/-- Position of the first element of `table` equal to `q`, counted from `i`. -/
def firstMatchFrom (q : CHARSXP) : List CHARSXP → Int → Int
  | [], _ => NA_INTEGER
  | t :: rest, i => if t = q then i else firstMatchFrom q rest (i + 1)

/-- Modelled from the spec: the sugar function `match`, which is not part of
`Subsetter.h`.  For each query label, the one-based position of its first exact
match in the target sequence, or missing if absent. -/
def matchFirst (x table : List CHARSXP) : List Int :=
  x.map (fun q => firstMatchFrom q table 1)

/-- The integer index that the spec puts in place of a logical mask, in the
spec's words: the left-to-right list of the zero-based positions at which the
mask is true, with a missing entry at each place where the mask is missing. -/
def maskPositions (M : List Int) : List Int :=
  M.enum.filterMap (fun p =>
    if p.2 = NA_LOGICAL then some NA_INTEGER
    else if p.2 ≠ 0 then some (p.1 : Int)
    else none)

/-- The index `K` of a composed subsetting: `K[m]` is missing when `J[m]` is
missing and `I[J[m]]` otherwise. -/
def composeIndex (I J : List Int) : List Int :=
  J.map (fun j => if j = NA_INTEGER then NA_INTEGER else I.getD j.toNat NA_INTEGER)

/-- The index `P` that stands for a character index: `P[i]` is the zero-based
position of the first occurrence of `C[i]` in the names `N`. -/
def firstPositions (C N : List CHARSXP) : List Int :=
  C.map (fun q => Int.ofNat (N.findIdx (fun t => decide (t = q))))

/-- A host with bounds checking as given, integer elements, the modelled `match`,
and fixed contents for the memory outside the vectors. -/
def intHost (check : Bool) : Host Int where
  boundsCheck := check
  na := NA_INTEGER
  lookup := matchFirst
  eltOutside := fun _ => 77
  nameOutside := fun _ => some "?"
  idxOutside := fun _ => 1
  nameNoInit := fun _ => some ""

/-- A host for character vectors, otherwise as `intHost`. -/
def strHost (check : Bool) : Host CHARSXP where
  boundsCheck := check
  na := NA_STRING
  lookup := matchFirst
  eltOutside := fun _ => some "?"
  nameOutside := fun _ => some "?"
  idxOutside := fun _ => 1
  nameNoInit := fun _ => some ""

/-! ## The loops -/

theorem elementLoop_ok_iff {α : Type} (h : Host α) (V : Vector α) (x : List Int)
    (out : List α) :
    elementLoop h V x = .ok out ↔
      List.Forall₂ (fun xi v => elementStep h V xi = .ok v) x out := by
  induction x generalizing out with
  | nil =>
    cases out with
    | nil => simp [elementLoop]
    | cons v vs => simp [elementLoop]
  | cons xi rest ih =>
    cases hs : elementStep h V xi with
    | error e =>
      cases out with
      | nil => simp [elementLoop, hs]
      | cons v vs => simp [elementLoop, hs]
    | ok v =>
      cases hl : elementLoop h V rest with
      | error e =>
        cases out with
        | nil => simp [elementLoop, hs, hl]
        | cons w ws =>
          simp only [elementLoop, hs, hl, List.forall₂_cons]
          constructor
          · intro hc; cases hc
          · rintro ⟨-, h2⟩
            rw [← ih, hl] at h2
            cases h2
      | ok vs =>
        cases out with
        | nil => simp [elementLoop, hs, hl]
        | cons w ws =>
          simp only [elementLoop, hs, hl, List.forall₂_cons, Except.ok.injEq, List.cons.injEq]
          rw [← ih, hl]
          simp

theorem elementLoop_error_of_mem {α : Type} (h : Host α) (V : Vector α) (x : List Int)
    (hbad : ∃ xi ∈ x, ∃ e, elementStep h V xi = .error e ∧ e.isIndexError = true)
    (hall : ∀ xi ∈ x, ∀ e, elementStep h V xi = .error e → e.isIndexError = true) :
    ∃ e, elementLoop h V x = .error e ∧ e.isIndexError = true := by
  induction x with
  | nil => simp at hbad
  | cons xi rest ih =>
    cases hs : elementStep h V xi with
    | error e =>
      exact ⟨e, by simp [elementLoop, hs], hall xi (by simp) e hs⟩
    | ok v =>
      have hbad2 : ∃ xj ∈ rest, ∃ e, elementStep h V xj = .error e ∧ e.isIndexError = true := by
        obtain ⟨xj, hmem, e, he, hie⟩ := hbad
        rcases List.mem_cons.1 hmem with rfl | hmem
        · rw [hs] at he; cases he
        · exact ⟨xj, hmem, e, he, hie⟩
      obtain ⟨e, he, hie⟩ := ih hbad2 (fun xj hj => hall xj (List.mem_cons_of_mem _ hj))
      exact ⟨e, by simp [elementLoop, hs, he], hie⟩

theorem nameLoop_length {α : Type} (h : Host α) (V : Vector α) (nm : List CHARSXP)
    (k : Nat) (x : List Int) : (nameLoop h V nm k x).length = x.length := by
  induction x generalizing k with
  | nil => rfl
  | cons xi rest ih => simp [nameLoop, ih]

theorem nameLoop_getElem? {α : Type} (h : Host α) (V : Vector α) (nm : List CHARSXP)
    (k : Nat) (x : List Int) (i : Nat) :
    (nameLoop h V nm k x)[i]? = (x[i]?).map (nameStep h V nm (k + i)) := by
  induction x generalizing k i with
  | nil => simp [nameLoop]
  | cons xi rest ih =>
    cases i with
    | zero => simp [nameLoop]
    | succ j =>
      simp only [nameLoop, List.getElem?_cons_succ]
      rw [ih, Nat.add_right_comm, Nat.add_assoc]

/-- What the element loop stores for index `xi` when it does not stop. -/
theorem elementStep_ok_eq {α : Type} (h : Host α) (V : Vector α) (xi : Int) (v : α)
    (hv : elementStep h V xi = .ok v) :
    v = if xi = NA_INTEGER then h.na else rawAt h.eltOutside V.data xi := by
  unfold elementStep at hv
  split_ifs at hv with h1 h2 h3 <;> simp_all

theorem elementLoop_eq_map {α : Type} (h : Host α) (V : Vector α) (x : List Int)
    (out : List α) (ho : elementLoop h V x = .ok out) :
    out = x.map (fun xi => if xi = NA_INTEGER then h.na else rawAt h.eltOutside V.data xi) := by
  rw [elementLoop_ok_iff] at ho
  induction ho with
  | nil => rfl
  | cons hab _ ih => rw [List.map_cons, ← ih, ← elementStep_ok_eq h V _ _ hab]

theorem elementStep_na {α : Type} (h : Host α) (V : Vector α) :
    elementStep h V NA_INTEGER = .ok h.na := by
  simp [elementStep]

theorem elementStep_inRange {α : Type} (h : Host α) (V : Vector α) (xi : Int)
    (hna : xi ≠ NA_INTEGER) (h0 : 0 ≤ xi) (h1 : xi ≤ (V.size : Int) - 1) :
    elementStep h V xi = .ok (rawAt h.eltOutside V.data xi) := by
  have h2 : ¬ xi < 0 := by omega
  have h3 : ¬ xi > (V.size : Int) - 1 := by omega
  simp [elementStep, hna, h2, h3]

theorem elementLoop_ok_of_forall {α : Type} (h : Host α) (V : Vector α) (x : List Int)
    (hr : ∀ xi ∈ x, xi ≠ NA_INTEGER → 0 ≤ xi ∧ xi ≤ (V.size : Int) - 1) :
    ∃ out, elementLoop h V x = .ok out := by
  induction x with
  | nil => exact ⟨[], rfl⟩
  | cons xi rest ih =>
    obtain ⟨vs, hvs⟩ := ih (fun xj hj => hr xj (List.mem_cons_of_mem _ hj))
    by_cases hna : xi = NA_INTEGER
    · subst hna
      exact ⟨h.na :: vs, by simp [elementLoop, elementStep_na, hvs]⟩
    · obtain ⟨h0, h1⟩ := hr xi (by simp) hna
      exact ⟨rawAt h.eltOutside V.data xi :: vs, by
        simp [elementLoop, elementStep_inRange h V xi hna h0 h1, hvs]⟩

theorem rawAt_inside {β : Type} (outside : Int → β) (v : List β) (k : Int)
    (h0 : 0 ≤ k) (h1 : k < (v.length : Int)) : v[k.toNat]? = some (rawAt outside v k) := by
  have hlt : k.toNat < v.length := by omega
  simp [rawAt, h0, h1, List.getD, List.getElem?_eq_getElem hlt]

/-! ## The integer `subset_impl` with bounds checking -/

/-- C1: with bounds checking enabled, for a non-empty integer index whose
non-missing entries all lie in `[0, L-1]`, the integer `subset_impl` succeeds,
the output is as long as the index, and `output[i]` is the element kind's
missing value when `x[i]` is `NA_INTEGER` and `V[x[i]]` otherwise. -/
theorem subset_impl_int_checked_elements {α : Type} (h : Host α) (V : Vector α)
    (x : List Int) (_hb : h.boundsCheck = true) (hne : x ≠ [])
    (hr : ∀ xi ∈ x, xi ≠ NA_INTEGER → 0 ≤ xi ∧ xi ≤ (V.size : Int) - 1) :
    ∃ out, subset_impl_int h V x = .ok out ∧ out.size = x.length ∧
      ∀ i (hi : i < x.length),
        out.data[i]? = if x[i] = NA_INTEGER then some h.na else V.data[(x[i]).toNat]? := by
  obtain ⟨vs, hvs⟩ := elementLoop_ok_of_forall h V x hr
  have hmap := elementLoop_eq_map h V x vs hvs
  have hlen : x.length ≠ 0 := by simpa using hne
  have hpt : ∀ i (hi : i < x.length),
      vs[i]? = if x[i] = NA_INTEGER then some h.na else V.data[(x[i]).toNat]? := by
    intro i hi
    rw [hmap, List.getElem?_map, List.getElem?_eq_getElem hi]
    by_cases hna : x[i] = NA_INTEGER
    · simp [hna]
    · obtain ⟨h0, h1⟩ := hr x[i] (List.getElem_mem hi) hna
      have h2 : x[i] < (V.data.length : Int) := by
        have : (V.size : Int) = (V.data.length : Int) := rfl
        omega
      simp [hna, rawAt_inside h.eltOutside V.data x[i] h0 h2]
  have hvl : vs.length = x.length := by rw [hmap, List.length_map]
  cases hn : V.names with
  | none =>
    exact ⟨⟨vs, none⟩, by simp [subset_impl_int, hlen, hvs, hn], hvl, hpt⟩
  | some nm =>
    exact ⟨⟨vs, some (nameLoop h V nm 0 x)⟩, by simp [subset_impl_int, hlen, hvs, hn], hvl, hpt⟩

/-- The statement of C1 at `V = [10, 20, 30]`, index `[2, 0, NA]`. -/
theorem subset_impl_int_checked_elements_witness :
    ∃ out, subset_impl_int (intHost true) ⟨[10, 20, 30], none⟩ [2, 0, NA_INTEGER] = .ok out ∧
      out.size = [2, 0, NA_INTEGER].length ∧
      ∀ i (hi : i < [2, 0, NA_INTEGER].length),
        out.data[i]? = if [2, 0, NA_INTEGER][i] = NA_INTEGER then some (intHost true).na
          else ([10, 20, 30] : List Int)[([2, 0, NA_INTEGER][i]).toNat]? :=
  subset_impl_int_checked_elements (intHost true) ⟨[10, 20, 30], none⟩ [2, 0, NA_INTEGER]
    rfl (by decide) (by decide)

theorem elementStep_error_isIndexError {α : Type} (h : Host α) (V : Vector α) (xi : Int)
    (e : Stop) (he : elementStep h V xi = .error e) : e.isIndexError = true := by
  unfold elementStep at he
  split_ifs at he <;> cases he <;> rfl

theorem elementStep_checked_outOfRange {α : Type} (h : Host α) (V : Vector α) (xi : Int)
    (hb : h.boundsCheck = true) (hna : xi ≠ NA_INTEGER)
    (hout : xi < 0 ∨ xi > (V.size : Int) - 1) :
    ∃ e, elementStep h V xi = .error e ∧ e.isIndexError = true := by
  by_cases h0 : xi < 0
  · exact ⟨.indexBelow, by simp [elementStep, hna, hb, h0], rfl⟩
  · have h1 : xi > (V.size : Int) - 1 := by
      rcases hout with hlt | hgt
      · exact absurd hlt h0
      · exact hgt
    exact ⟨.indexAbove, by simp [elementStep, hna, hb, h0, h1], rfl⟩

/-- C2: with bounds checking enabled, an integer index with at least one
non-missing entry that is `< 0` or `> L-1` makes `subset` stop with one of the
two "Index error" messages, whatever the other entries are; no vector is
returned. -/
theorem subset_int_checked_outOfRange {α ρ : Type} (h : Host α) (toInt : ρ → Int)
    (V : Vector α) (x : List Int) (hb : h.boundsCheck = true)
    (hbad : ∃ xi ∈ x, xi ≠ NA_INTEGER ∧ (xi < 0 ∨ xi > (V.size : Int) - 1)) :
    ∃ e, subset h toInt V (Index.int x) = .error e ∧ e.isIndexError = true := by
  obtain ⟨xi, hmem, hna, hout⟩ := hbad
  have hlen : x.length ≠ 0 := by
    intro h0
    rw [List.length_eq_zero] at h0
    rw [h0] at hmem
    cases hmem
  obtain ⟨e, he, hie⟩ := elementLoop_error_of_mem h V x
    ⟨xi, hmem, elementStep_checked_outOfRange h V xi hb hna hout⟩
    (fun xj _ e he => elementStep_error_isIndexError h V xj e he)
  exact ⟨e, by simp [subset, subset_impl_int, hlen, he], hie⟩

/-- The statement of C2 at `V = [10, 20, 30]`, index `[0, NA, 3, -1]`. -/
theorem subset_int_checked_outOfRange_witness :
    ∃ e, subset (intHost true) (fun r : Int => r) ⟨[10, 20, 30], none⟩
        (Index.int [0, NA_INTEGER, 3, -1]) = .error e ∧ e.isIndexError = true :=
  subset_int_checked_outOfRange (intHost true) (fun r : Int => r) ⟨[10, 20, 30], none⟩
    [0, NA_INTEGER, 3, -1] rfl ⟨3, by decide, by decide, by decide⟩

/-! ## Character subsetting -/

theorem firstMatchFrom_not_mem (q : CHARSXP) (table : List CHARSXP) (k : Int)
    (hq : q ∉ table) : firstMatchFrom q table k = NA_INTEGER := by
  induction table generalizing k with
  | nil => rfl
  | cons t rest ih =>
    have ht : ¬ t = q := fun hc => hq (by simp [hc])
    have hr : q ∉ rest := fun hc => hq (List.mem_cons_of_mem _ hc)
    simp [firstMatchFrom, ht, ih _ hr]

theorem sub32_NA_INTEGER : sub32 NA_INTEGER 1 = 2147483647 := by decide

/-- With bounds checking enabled and `match` as the spec describes it, a
character index holding a label that is not among the names makes the character
`subset_impl` stop with an "Index error": the `NA_INTEGER` that `match` returns
for it becomes `INT_MAX` in `idx[i] - 1`. -/
theorem subset_impl_str_checked_unmatched {α : Type} (h : Host α) (V : Vector α)
    (nm : List CHARSXP) (x : List CHARSXP) (hb : h.boundsCheck = true)
    (hm : h.lookup = matchFirst) (hn : V.names = some nm) (hsz : V.size ≤ 2147483647)
    (hq : ∃ q ∈ x, q ∉ nm) :
    ∃ e, subset_impl_str h V x = .error e ∧ e.isIndexError = true := by
  obtain ⟨q, hqx, hqn⟩ := hq
  have hmem : (2147483647 : Int) ∈ (matchFirst x nm).map (fun v => sub32 v 1) := by
    rw [List.mem_map]
    refine ⟨NA_INTEGER, ?_, sub32_NA_INTEGER⟩
    unfold matchFirst
    rw [List.mem_map]
    exact ⟨q, hqx, firstMatchFrom_not_mem q nm 1 hqn⟩
  have hout : (2147483647 : Int) < 0 ∨ (2147483647 : Int) > (V.size : Int) - 1 := by
    right; omega
  obtain ⟨e, he, hie⟩ := elementLoop_error_of_mem h V _
    ⟨2147483647, hmem, elementStep_checked_outOfRange h V 2147483647 hb (by decide) hout⟩
    (fun xj _ e he => elementStep_error_isIndexError h V xj e he)
  have hlen : ((matchFirst x nm).map (fun v => sub32 v 1)).length ≠ 0 := by
    intro h0
    rw [List.length_eq_zero] at h0
    rw [h0] at hmem
    cases hmem
  refine ⟨e, ?_, hie⟩
  have hint : subset_impl_int h V ((matchFirst x nm).map (fun v => sub32 v 1)) = .error e := by
    simp only [subset_impl_int, hlen, he, if_false]
  simp only [subset_impl_str, hn, hm, hint]

/-- C3, at names `["x", "y", "z"]` queried with `["z", "w"]` under bounds
checking: the character `subset_impl` stops with "Index error: tried to index
above vector size" instead of returning `["c", NA]`. -/
theorem subset_str_unmatched_example :
    subset (strHost true) (fun r : Int => r)
        ⟨[some "a", some "b", some "c"], some [some "x", some "y", some "z"]⟩
        (Index.str [some "z", some "w"]) = .error .indexAbove := by
  decide

/-- C4: a character index on a vector without a `names` attribute stops with
"can't subset a nameless vector using a CharacterVector", for every index,
every `match` function and every host; no vector is returned. -/
theorem subset_str_nameless {α ρ : Type} (h : Host α) (toInt : ρ → Int) (V : Vector α)
    (x : List CHARSXP) (hn : V.names = none) :
    subset h toInt V (Index.str x) = .error .nameless ∧
      Stop.nameless.what = "can\x27t subset a nameless vector using a CharacterVector" := by
  constructor
  · simp only [subset, subset_impl_str, hn]
  · rfl

/-- The statement of C4 at `V = [5, 6]` without names, index `["a"]`. -/
theorem subset_str_nameless_witness :
    subset (intHost true) (fun r : Int => r) ⟨[5, 6], none⟩ (Index.str [some "a"])
        = .error .nameless ∧
      Stop.nameless.what = "can\x27t subset a nameless vector using a CharacterVector" :=
  subset_str_nameless (intHost true) (fun r : Int => r) ⟨[5, 6], none⟩ [some "a"] rfl

/-! ## Logical subsetting -/

/-- C6: a logical index whose length differs from the vector's stops with
"subsetting with a LogicalVector requires both vectors to be of equal size",
whatever the entries of the index and of the vector are. -/
theorem subset_lgl_sizeMismatch {α ρ : Type} (h : Host α) (toInt : ρ → Int) (V : Vector α)
    (M : List Int) (hlen : M.length ≠ V.size) :
    subset h toInt V (Index.lgl M) = .error .sizeMismatch := by
  have hne : V.size ≠ M.length := fun hc => hlen hc.symm
  simp only [subset, subset_impl_lgl, hne, ne_eq, not_false_eq_true, if_true]

/-- The statement of C6 at `V = [1, 2, 3]`, mask `[TRUE, NA]`. -/
theorem subset_lgl_sizeMismatch_witness :
    subset (intHost true) (fun r : Int => r) ⟨[1, 2, 3], none⟩ (Index.lgl [1, NA_LOGICAL])
      = .error .sizeMismatch :=
  subset_lgl_sizeMismatch (intHost true) (fun r : Int => r) ⟨[1, 2, 3], none⟩
    [1, NA_LOGICAL] (by decide)

theorem which_na_from_eq_filterMap (M : List Int) (k : Nat) :
    which_na_from M (k : Int) = (M.enumFrom k).filterMap (fun p =>
      if p.2 = NA_LOGICAL then some NA_INTEGER
      else if p.2 ≠ 0 then some (p.1 : Int)
      else none) := by
  induction M generalizing k with
  | nil => rfl
  | cons m rest ih =>
    have ih1 := ih (k + 1)
    push_cast at ih1
    simp only [which_na_from, List.enumFrom_cons, List.filterMap_cons]
    by_cases h1 : m = NA_LOGICAL
    · simp [h1, ih1]
    · by_cases h2 : m = 0
      · subst h2
        simp [h1, ih1]
      · simp [h1, h2, ih1]

theorem which_na_eq_maskPositions (M : List Int) : which_na M = maskPositions M := by
  have := which_na_from_eq_filterMap M 0
  simpa [which_na, maskPositions, List.enum] using this

theorem which_na_from_eq_nil_iff (M : List Int) (k : Int) :
    which_na_from M k = [] ↔ ∀ m ∈ M, m = 0 := by
  induction M generalizing k with
  | nil => simp [which_na_from]
  | cons m rest ih =>
    by_cases h1 : m = NA_LOGICAL
    · subst h1
      have h0 : ¬ NA_LOGICAL = 0 := by decide
      simp [which_na_from, h0]
    · by_cases h2 : m = 0
      · subst h2
        simp [which_na_from, h1, ih]
      · simp [which_na_from, h1, h2]

/-- C5, at `V = [1]` with the mask `[FALSE]`: the logical `subset_impl` returns
the empty vector, while the integer `subset_impl`, on the empty index that
stands for the mask, returns `V` itself; the two results differ. -/
theorem subset_lgl_ne_subset_int_example :
    subset (intHost true) (fun r : Int => r) ⟨[1], none⟩ (Index.lgl [0])
        = .ok Vector.empty ∧
      subset (intHost true) (fun r : Int => r) ⟨[1], none⟩ (Index.int (maskPositions [0]))
        = .ok ⟨[1], none⟩ ∧
      subset (intHost true) (fun r : Int => r) ⟨[1], none⟩ (Index.lgl [0]) ≠
        subset (intHost true) (fun r : Int => r) ⟨[1], none⟩
          (Index.int (maskPositions [0])) := by
  decide

/-- For a mask as long as the vector, with at least one entry true or missing,
`subset` on the mask equals `subset` on the integer index of the positions that
are true, with a missing entry wherever the mask is missing (same stop or same
elements and names); and with no entry true or missing, `subset` on the mask
returns the empty vector without names. -/
theorem subset_lgl_eq_subset_int {α ρ : Type} (h : Host α) (toInt : ρ → Int) (V : Vector α)
    (M : List Int) (hlen : M.length = V.size) :
    ((∃ m ∈ M, m = NA_LOGICAL ∨ m ≠ 0) →
        subset h toInt V (Index.lgl M) = subset h toInt V (Index.int (maskPositions M))) ∧
      ((∀ m ∈ M, m = 0) → subset h toInt V (Index.lgl M) = .ok Vector.empty) := by
  have hsz : ¬ V.size ≠ M.length := by simp [hlen]
  constructor
  · rintro ⟨m, hm, hmt⟩
    have hm0 : m ≠ 0 := by
      rcases hmt with hna | h0
      · rw [hna]; decide
      · exact h0
    have hne : ¬ (which_na M).length = 0 := by
      rw [List.length_eq_zero, which_na, which_na_from_eq_nil_iff]
      intro hc
      exact hm0 (hc m hm)
    simp only [subset, subset_impl_lgl, hsz, hne, if_false]
    rw [which_na_eq_maskPositions]
  · intro hall
    have he : (which_na M).length = 0 := by
      rw [List.length_eq_zero, which_na, which_na_from_eq_nil_iff]
      exact hall
    simp only [subset, subset_impl_lgl, hsz, he, if_false, if_true]

/-- The two cases of `subset_lgl_eq_subset_int` at `V = [1, 2, 3, 4]`, mask
`[TRUE, FALSE, NA, TRUE]`, and at `V = [1, 2]`, mask `[FALSE, FALSE]`. -/
theorem subset_lgl_eq_subset_int_witness :
    subset (intHost true) (fun r : Int => r) ⟨[1, 2, 3, 4], none⟩
          (Index.lgl [1, 0, NA_LOGICAL, 1]) =
        subset (intHost true) (fun r : Int => r) ⟨[1, 2, 3, 4], none⟩
          (Index.int (maskPositions [1, 0, NA_LOGICAL, 1])) ∧
      subset (intHost true) (fun r : Int => r) ⟨[1, 2], none⟩ (Index.lgl [0, 0])
        = .ok Vector.empty :=
  ⟨(subset_lgl_eq_subset_int (intHost true) (fun r : Int => r) ⟨[1, 2, 3, 4], none⟩
      [1, 0, NA_LOGICAL, 1] rfl).1 ⟨1, by decide, by decide⟩,
    (subset_lgl_eq_subset_int (intHost true) (fun r : Int => r) ⟨[1, 2], none⟩
      [0, 0] rfl).2 (by decide)⟩

/-! ## Empty index vectors -/

/-- C7 as stated fails at the unnamed `V = [5, 6]`: the empty logical index
stops on the size check and the empty character index on the names check. -/
theorem subset_empty_index_stops_example :
    subset (intHost true) (fun r : Int => r) ⟨[5, 6], none⟩ (Index.lgl [])
        = .error .sizeMismatch ∧
      subset (intHost true) (fun r : Int => r) ⟨[5, 6], none⟩ (Index.str [])
        = .error .nameless := by
  decide

/-- C7, amended: on an empty logical index `subset` returns the empty vector
when the vector has length 0 and stops on the size check otherwise; on an empty
character index and a vector without names it stops on the names check; and for
a vector of length 0 an empty integer or numeric index, and an empty character
index when the vector has names, return a vector of length 0. -/
theorem subset_empty_index {α ρ : Type} (h : Host α) (toInt : ρ → Int) (V : Vector α)
    (hm : ∀ table, h.lookup [] table = []) :
    (V.size = 0 → subset h toInt V (Index.lgl []) = .ok Vector.empty) ∧
      (V.size ≠ 0 → subset h toInt V (Index.lgl []) = .error .sizeMismatch) ∧
      (V.names = none → subset h toInt V (Index.str []) = .error .nameless) ∧
      (V.size = 0 → V.names ≠ none →
        ∃ out, subset h toInt V (Index.str []) = .ok out ∧ out.size = 0) ∧
      (V.size = 0 → ∃ out, subset h toInt V (Index.int []) = .ok out ∧ out.size = 0) ∧
      (V.size = 0 → ∃ out, subset h toInt V (Index.real []) = .ok out ∧ out.size = 0) := by
  refine ⟨?_, ?_, ?_, ?_, ?_, ?_⟩
  · intro h0
    simp [subset, subset_impl_lgl, h0, which_na, which_na_from]
  · intro h0
    simp [subset, subset_impl_lgl, h0]
  · intro hn
    simp only [subset, subset_impl_str, hn]
  · intro h0 hn
    cases hnm : V.names with
    | none => exact absurd hnm hn
    | some nm =>
      refine ⟨Vector.empty, ?_, rfl⟩
      simp [subset, subset_impl_str, hnm, hm, subset_impl_int, h0]
  · intro h0
    exact ⟨V, by simp [subset, subset_impl_int], h0⟩
  · intro h0
    exact ⟨V, by simp [subset, subset_impl_real, subset_impl_int], h0⟩

/-- The statement of amended C7 at the empty vector, without and with names,
and at the unnamed `V = [5, 6]`. -/
theorem subset_empty_index_witness :
    subset (intHost true) (fun r : Int => r) ⟨[], none⟩ (Index.lgl []) = .ok Vector.empty ∧
      subset (intHost true) (fun r : Int => r) ⟨[5, 6], none⟩ (Index.lgl [])
        = .error .sizeMismatch ∧
      subset (intHost true) (fun r : Int => r) ⟨[5, 6], none⟩ (Index.str [])
        = .error .nameless ∧
      (∃ out, subset (intHost true) (fun r : Int => r) ⟨[], some []⟩ (Index.str [])
        = .ok out ∧ out.size = 0) ∧
      (∃ out, subset (intHost true) (fun r : Int => r) ⟨[], none⟩ (Index.int [])
        = .ok out ∧ out.size = 0) ∧
      (∃ out, subset (intHost true) (fun r : Int => r) ⟨[], none⟩ (Index.real [])
        = .ok out ∧ out.size = 0) :=
  ⟨(subset_empty_index (intHost true) (fun r : Int => r) ⟨[], none⟩ (fun _ => rfl)).1 rfl,
    (subset_empty_index (intHost true) (fun r : Int => r) ⟨[5, 6], none⟩
      (fun _ => rfl)).2.1 (by decide),
    (subset_empty_index (intHost true) (fun r : Int => r) ⟨[5, 6], none⟩
      (fun _ => rfl)).2.2.1 rfl,
    (subset_empty_index (intHost true) (fun r : Int => r) ⟨[], some []⟩
      (fun _ => rfl)).2.2.2.1 rfl (by decide),
    (subset_empty_index (intHost true) (fun r : Int => r) ⟨[], none⟩
      (fun _ => rfl)).2.2.2.2.1 rfl,
    (subset_empty_index (intHost true) (fun r : Int => r) ⟨[], none⟩
      (fun _ => rfl)).2.2.2.2.2 rfl⟩

/-! ## Identity, missing indices, names -/

theorem NA_INTEGER_ne_natCast (i : Nat) : (i : Int) ≠ NA_INTEGER := by
  unfold NA_INTEGER
  omega

theorem rawAt_natCast {β : Type} (outside : Int → β) (v : List β) (i : Nat)
    (hi : i < v.length) : rawAt outside v (i : Int) = v[i] := by
  have h := rawAt_inside outside v (i : Int) (by omega) (by omega)
  rw [Int.toNat_ofNat, List.getElem?_eq_getElem hi] at h
  exact (Option.some.inj h).symm

theorem nameStep_natCast {α : Type} (h : Host α) (V : Vector α) (nm : List CHARSXP)
    (k i : Nat) (hi : i < nm.length) (hwf : nm.length = V.size) :
    nameStep h V nm k (i : Int) = nm[i] := by
  have h1 : ¬ (i : Int) > (V.size : Int) - 1 := by omega
  have h2 : (i : Int) ≥ 0 := by omega
  simp only [nameStep, NA_INTEGER_ne_natCast, h1, h2, decide_False, Bool.and_false, if_false,
    if_true, Bool.false_eq_true]
  exact rawAt_natCast h.nameOutside nm i hi

/-- C8: for a vector `V` of any length `L` whose names, if present, are as long
as `V`, `subset` on the integer index `[0, 1, ..., L-1]` succeeds and returns
the elements of `V` and, when `V` has names, the names of `V`. -/
theorem subset_int_identity {α ρ : Type} (h : Host α) (toInt : ρ → Int) (V : Vector α)
    (hwf : V.WellFormed) :
    subset h toInt V (Index.int ((List.range V.size).map Int.ofNat)) = .ok V := by
  obtain ⟨data, names⟩ := V
  by_cases h0 : data.length = 0
  · simp [subset, subset_impl_int, Vector.size, h0]
  · have hr : ∀ xi ∈ (List.range data.length).map Int.ofNat,
        xi ≠ NA_INTEGER → 0 ≤ xi ∧ xi ≤ ((Vector.mk data names).size : Int) - 1 := by
      intro xi hxi _
      rw [List.mem_map] at hxi
      obtain ⟨i, hi, rfl⟩ := hxi
      rw [List.mem_range] at hi
      have h1 : (Vector.mk data names).size = data.length := rfl
      have h2 : Int.ofNat i = (i : Int) := rfl
      omega
    obtain ⟨vs, hvs⟩ := elementLoop_ok_of_forall h ⟨data, names⟩ _ hr
    have hmap := elementLoop_eq_map h ⟨data, names⟩ _ vs hvs
    have hdata : vs = data := by
      rw [hmap]
      apply List.ext_getElem
      · simp
      · intro i h1 h2
        simp only [List.getElem_map, List.getElem_range, Int.ofNat_eq_coe,
          NA_INTEGER_ne_natCast, if_false]
        exact rawAt_natCast h.eltOutside data i h2
    have hlen : ¬ ((List.range data.length).map Int.ofNat).length = 0 := by
      simpa using h0
    cases names with
    | none =>
      simp only [subset, subset_impl_int, Vector.size, hlen, if_false]
      have hvs2 := hvs
      simp only [Vector.size] at hvs2
      rw [hvs2, hdata]
    | some nm =>
      have hnl : nm.length = data.length := hwf nm rfl
      have hnames : nameLoop h ⟨data, some nm⟩ nm 0
          ((List.range data.length).map Int.ofNat) = nm := by
        apply List.ext_getElem
        · rw [nameLoop_length]; simp [hnl]
        · intro i h1 h2
          have hget := nameLoop_getElem? h ⟨data, some nm⟩ nm 0
            ((List.range data.length).map Int.ofNat) i
          rw [List.getElem?_eq_getElem h1] at hget
          have hir : i < data.length := by omega
          rw [List.getElem?_map, List.getElem?_range hir] at hget
          simp only [Option.map_some', Nat.zero_add, Int.ofNat_eq_coe] at hget
          rw [nameStep_natCast h ⟨data, some nm⟩ nm i i h2 hnl] at hget
          exact Option.some.inj hget
      simp only [subset, subset_impl_int, Vector.size, hlen, if_false]
      have hvs2 := hvs
      simp only [Vector.size] at hvs2
      rw [hvs2, hdata, hnames]

/-- The statement of C8 at `V = [10, 20, 30]` with names `["x", NA, "z"]`. -/
theorem subset_int_identity_witness :
    subset (intHost true) (fun r : Int => r) ⟨[10, 20, 30], some [some "x", none, some "z"]⟩
        (Index.int ((List.range 3).map Int.ofNat))
      = .ok ⟨[10, 20, 30], some [some "x", none, some "z"]⟩ :=
  subset_int_identity (intHost true) (fun r : Int => r)
    ⟨[10, 20, 30], some [some "x", none, some "z"]⟩
    (fun nm hnm => by cases hnm; rfl)

theorem nameStep_na {α : Type} (h : Host α) (V : Vector α) (nm : List CHARSXP) (k : Nat) :
    nameStep h V nm k NA_INTEGER = NA_STRING := by
  simp [nameStep]

/-- C9: in both bounds-checking settings, whenever the integer `subset_impl`
returns a vector, each position `i` with `x[i] = NA_INTEGER` holds the element
kind's missing value and, when `V` has names, the output has names and name `i`
is `NA_STRING`. -/
theorem subset_impl_int_missing {α : Type} (h : Host α) (V : Vector α) (x : List Int)
    (out : Vector α) (ho : subset_impl_int h V x = .ok out) (i : Nat) (hi : i < x.length)
    (hna : x[i] = NA_INTEGER) :
    out.data[i]? = some h.na ∧
      ∀ nm, V.names = some nm → ∃ onm, out.names = some onm ∧ onm[i]? = some NA_STRING := by
  have hlen : ¬ x.length = 0 := by omega
  simp only [subset_impl_int, hlen, if_false] at ho
  cases hl : elementLoop h V x with
  | error e => simp [hl] at ho
  | ok vs =>
    have hmap := elementLoop_eq_map h V x vs hl
    have hel : vs[i]? = some h.na := by
      rw [hmap, List.getElem?_map, List.getElem?_eq_getElem hi]
      simp [hna]
    cases hn : V.names with
    | none =>
      simp only [hl, hn, Except.ok.injEq] at ho
      subst ho
      exact ⟨hel, fun nm hnm => by cases hnm⟩
    | some nm0 =>
      simp only [hl, hn, Except.ok.injEq] at ho
      subst ho
      refine ⟨hel, fun nm hnm => ⟨nameLoop h V nm0 0 x, rfl, ?_⟩⟩
      rw [nameLoop_getElem?, List.getElem?_eq_getElem hi, hna]
      simp [nameStep_na]

/-- The statement of C9 with bounds checking disabled, at `V = [10, 20, 30]`
with names `["x", "y", "z"]`, index `[2, NA]`, position 1. -/
theorem subset_impl_int_missing_witness :
    (⟨[30, NA_INTEGER], some [some "z", NA_STRING]⟩ : Vector Int).data[1]?
        = some (intHost false).na ∧
      ∀ nm, (⟨[10, 20, 30], some [some "x", some "y", some "z"]⟩ : Vector Int).names = some nm →
        ∃ onm, (⟨[30, NA_INTEGER], some [some "z", NA_STRING]⟩ : Vector Int).names = some onm ∧
          onm[1]? = some NA_STRING :=
  subset_impl_int_missing (intHost false) ⟨[10, 20, 30], some [some "x", some "y", some "z"]⟩
    [2, NA_INTEGER] ⟨[30, NA_INTEGER], some [some "z", NA_STRING]⟩ (by decide) 1 (by decide)
    (by decide)

/-- C10: with bounds checking enabled, for a vector with names `nm` as long as
the vector and a non-empty integer index whose non-missing entries all lie in
`[0, L-1]`, the integer `subset_impl` returns a vector with names, as many as
index entries, where name `i` is `NA_STRING` when `x[i]` is `NA_INTEGER` and
`nm[x[i]]` otherwise. -/
theorem subset_impl_int_checked_names {α : Type} (h : Host α) (V : Vector α)
    (nm : List CHARSXP) (x : List Int) (hb : h.boundsCheck = true)
    (hn : V.names = some nm) (hwf : nm.length = V.size) (hne : x ≠ [])
    (hr : ∀ xi ∈ x, xi ≠ NA_INTEGER → 0 ≤ xi ∧ xi ≤ (V.size : Int) - 1) :
    ∃ out onm, subset_impl_int h V x = .ok out ∧ out.names = some onm ∧
      onm.length = x.length ∧
      ∀ i (hi : i < x.length),
        onm[i]? = if x[i] = NA_INTEGER then some NA_STRING else nm[(x[i]).toNat]? := by
  obtain ⟨vs, hvs⟩ := elementLoop_ok_of_forall h V x hr
  have hlen : x.length ≠ 0 := by simpa using hne
  refine ⟨⟨vs, some (nameLoop h V nm 0 x)⟩, nameLoop h V nm 0 x, ?_, rfl,
    nameLoop_length h V nm 0 x, ?_⟩
  · simp [subset_impl_int, hlen, hvs, hn]
  · intro i hi
    rw [nameLoop_getElem?, List.getElem?_eq_getElem hi, Option.map_some']
    by_cases hna : x[i] = NA_INTEGER
    · simp [hna, nameStep_na]
    · obtain ⟨h0, h1⟩ := hr x[i] (List.getElem_mem hi) hna
      have h2 : ¬ x[i] > (V.size : Int) - 1 := by omega
      have h3 : x[i] < (nm.length : Int) := by omega
      have h4 : x[i] ≥ 0 := h0
      simp only [nameStep, hna, hb, h2, h4, decide_False, Bool.and_false, if_false, if_true,
        Bool.false_eq_true]
      exact (rawAt_inside h.nameOutside nm x[i] h0 h3).symm

/-- The statement of C10 at `V = [10, 20, 30]` with names `["x", "y", "z"]`,
index `[2, NA, 0]`. -/
theorem subset_impl_int_checked_names_witness :
    ∃ out onm, subset_impl_int (intHost true)
          ⟨[10, 20, 30], some [some "x", some "y", some "z"]⟩ [2, NA_INTEGER, 0] = .ok out ∧
      out.names = some onm ∧ onm.length = [2, NA_INTEGER, 0].length ∧
      ∀ i (hi : i < [2, NA_INTEGER, 0].length),
        onm[i]? = if [2, NA_INTEGER, 0][i] = NA_INTEGER then some NA_STRING
          else [some "x", some "y", some "z"][([2, NA_INTEGER, 0][i]).toNat]? :=
  subset_impl_int_checked_names (intHost true) ⟨[10, 20, 30], some [some "x", some "y", some "z"]⟩
    [some "x", some "y", some "z"] [2, NA_INTEGER, 0] rfl rfl rfl (by decide) (by decide)

/-! ## Closed forms of the integer `subset_impl` -/

theorem nameLoop_inRange {α : Type} (h : Host α) (V : Vector α) (nm : List CHARSXP)
    (k : Nat) (x : List Int)
    (hr : ∀ xi ∈ x, xi ≠ NA_INTEGER → 0 ≤ xi ∧ xi ≤ (V.size : Int) - 1) :
    nameLoop h V nm k x =
      x.map (fun xi => if xi = NA_INTEGER then NA_STRING else rawAt h.nameOutside nm xi) := by
  induction x generalizing k with
  | nil => rfl
  | cons xi rest ih =>
    rw [nameLoop, List.map_cons, ih (k + 1) (fun xj hj => hr xj (List.mem_cons_of_mem _ hj))]
    congr 1
    by_cases hna : xi = NA_INTEGER
    · simp [nameStep, hna]
    · obtain ⟨h0, h1⟩ := hr xi (by simp) hna
      have h2 : ¬ xi > (V.size : Int) - 1 := by omega
      have h3 : xi ≥ 0 := h0
      simp only [nameStep, hna, h2, h3, decide_False, Bool.and_false, if_false, if_true,
        Bool.false_eq_true]

theorem elementLoop_inRange {α : Type} (h : Host α) (V : Vector α) (x : List Int)
    (hr : ∀ xi ∈ x, xi ≠ NA_INTEGER → 0 ≤ xi ∧ xi ≤ (V.size : Int) - 1) :
    elementLoop h V x =
      .ok (x.map (fun xi => if xi = NA_INTEGER then h.na else rawAt h.eltOutside V.data xi)) := by
  obtain ⟨vs, hvs⟩ := elementLoop_ok_of_forall h V x hr
  rw [hvs, elementLoop_eq_map h V x vs hvs]

theorem subset_impl_int_inRange {α : Type} (h : Host α) (V : Vector α) (x : List Int)
    (hne : x ≠ [])
    (hr : ∀ xi ∈ x, xi ≠ NA_INTEGER → 0 ≤ xi ∧ xi ≤ (V.size : Int) - 1) :
    subset_impl_int h V x =
      .ok ⟨x.map (fun xi => if xi = NA_INTEGER then h.na else rawAt h.eltOutside V.data xi),
        V.names.map (fun nm =>
          x.map (fun xi => if xi = NA_INTEGER then NA_STRING else rawAt h.nameOutside nm xi))⟩ := by
  have hlen : ¬ x.length = 0 := by simpa using hne
  cases hn : V.names with
  | none => simp [subset_impl_int, hlen, elementLoop_inRange h V x hr, hn]
  | some nm =>
    simp [subset_impl_int, hlen, elementLoop_inRange h V x hr, hn, nameLoop_inRange h V nm 0 x hr]

theorem subset_impl_int_ok_shape {α : Type} (h : Host α) (V : Vector α) (x : List Int)
    (out : Vector α) (hne : x ≠ []) (ho : subset_impl_int h V x = .ok out) :
    out.data.length = x.length ∧
      out.names = V.names.map (fun nm => nameLoop h V nm 0 x) := by
  have hlen : ¬ x.length = 0 := by simpa using hne
  simp only [subset_impl_int, hlen, if_false] at ho
  cases hl : elementLoop h V x with
  | error e => simp [hl] at ho
  | ok vs =>
    have hvl : vs.length = x.length := by
      rw [elementLoop_eq_map h V x vs hl, List.length_map]
    cases hn : V.names with
    | none =>
      simp only [hl, hn, Except.ok.injEq] at ho
      subst ho
      exact ⟨hvl, rfl⟩
    | some nm =>
      simp only [hl, hn, Except.ok.injEq] at ho
      subst ho
      exact ⟨hvl, rfl⟩

/-! ## The `names` attribute of the output -/

theorem subset_impl_int_names_iff {α : Type} (h : Host α) (V : Vector α) (x : List Int)
    (out : Vector α) (hne : x ≠ []) (ho : subset_impl_int h V x = .ok out) :
    (out.names.isSome = true ↔ V.names.isSome = true ∧ out.size ≠ 0) := by
  obtain ⟨hl, hn⟩ := subset_impl_int_ok_shape h V x out hne ho
  have hsz : out.size ≠ 0 := by
    have hx : x.length ≠ 0 := by simpa using hne
    unfold Vector.size
    omega
  rw [hn]
  cases V.names <;> simp [hsz]

/-- For every index other than an empty integer or numeric one, an output of
`subset` has a `names` attribute exactly when the source has one and the output
is not empty. -/
theorem subset_names_iff {α ρ : Type} (h : Host α) (toInt : ρ → Int) (V : Vector α)
    (idx : Index ρ) (out : Vector α)
    (hint : ∀ x, idx = Index.int x → x ≠ []) (hreal : ∀ x, idx = Index.real x → x ≠ [])
    (ho : subset h toInt V idx = .ok out) :
    (out.names.isSome = true ↔ V.names.isSome = true ∧ out.size ≠ 0) := by
  cases idx with
  | int x => exact subset_impl_int_names_iff h V x out (hint x rfl) ho
  | real x =>
    have hx : x.map toInt ≠ [] := by simpa using hreal x rfl
    exact subset_impl_int_names_iff h V (x.map toInt) out hx ho
  | lgl M =>
    simp only [subset, subset_impl_lgl] at ho
    split_ifs at ho with h1 h2
    · cases ho
      simp [Vector.empty, Vector.size]
    · exact subset_impl_int_names_iff h V (which_na M) out
        (fun hc => h2 (by rw [hc]; rfl)) ho
  | str C =>
    simp only [subset, subset_impl_str] at ho
    cases hn : V.names with
    | none => simp [hn] at ho
    | some nm =>
      simp only [hn] at ho
      cases hi : subset_impl_int h V ((h.lookup C nm).map (fun v => sub32 v 1)) with
      | error e => simp [hi] at ho
      | ok output =>
        simp only [hi] at ho
        split_ifs at ho with h1
        · cases ho
          simp [Vector.empty, Vector.size]
        · cases ho
          simpa [Vector.size] using h1

/-- C11, at the empty vector with an (empty) `names` attribute and the empty
integer index: the output is empty and has a `names` attribute. -/
theorem subset_int_empty_named_example :
    subset (intHost true) (fun r : Int => r) ⟨[], some []⟩ (Index.int [])
      = .ok ⟨[], some []⟩ := by
  decide

theorem subset_impl_int_wellFormed {α : Type} (h : Host α) (V : Vector α) (x : List Int)
    (out : Vector α) (hwf : V.WellFormed) (ho : subset_impl_int h V x = .ok out) :
    out.WellFormed := by
  by_cases hne : x = []
  · subst hne
    simp only [subset_impl_int, List.length_nil, if_true, Except.ok.injEq] at ho
    subst ho
    exact hwf
  · obtain ⟨hl, hn⟩ := subset_impl_int_ok_shape h V x out hne ho
    intro onm honm
    rw [hn] at honm
    cases hv : V.names with
    | none => simp [hv] at honm
    | some nm =>
      simp only [hv, Option.map_some', Option.some.injEq] at honm
      rw [← honm, nameLoop_length, hl]

/-- C17: when the names of `V`, if present, are as long as `V`, every output of
`subset` on an integer or a logical index has names, if present, as long as the
output. -/
theorem subset_preserves_wellFormed {α ρ : Type} (h : Host α) (toInt : ρ → Int)
    (V : Vector α) (idx : Index ρ) (out : Vector α) (hwf : V.WellFormed)
    (hk : (∃ x, idx = Index.int x) ∨ (∃ M, idx = Index.lgl M))
    (ho : subset h toInt V idx = .ok out) : out.WellFormed := by
  rcases hk with ⟨x, rfl⟩ | ⟨M, rfl⟩
  · exact subset_impl_int_wellFormed h V x out hwf ho
  · simp only [subset, subset_impl_lgl] at ho
    split_ifs at ho with h1 h2
    · cases ho
      intro nm hnm
      cases hnm
    · exact subset_impl_int_wellFormed h V (which_na M) out hwf ho

/-- The statement of C17 at `V = [10, 20, 30]` with names `["x", "y", "z"]` and
the mask `[TRUE, NA, FALSE]`. -/
theorem subset_preserves_wellFormed_witness :
    subset (intHost true) (fun r : Int => r)
        ⟨[10, 20, 30], some [some "x", some "y", some "z"]⟩ (Index.lgl [1, NA_LOGICAL, 0])
        = .ok ⟨[10, NA_INTEGER], some [some "x", NA_STRING]⟩ ∧
      (⟨[10, NA_INTEGER], some [some "x", NA_STRING]⟩ : Vector Int).WellFormed :=
  ⟨by decide,
    subset_preserves_wellFormed (intHost true) (fun r : Int => r)
      ⟨[10, 20, 30], some [some "x", some "y", some "z"]⟩ (Index.lgl [1, NA_LOGICAL, 0])
      ⟨[10, NA_INTEGER], some [some "x", NA_STRING]⟩
      (fun nm hnm => by cases hnm; rfl) (Or.inr ⟨_, rfl⟩) (by decide)⟩

/-- C18: on an index of length 0 the integer `subset_impl` returns `V` itself,
with its elements and its names, for every host; no "Index error" stop is
possible, whatever the bounds-checking setting. -/
theorem subset_impl_int_empty_index {α : Type} (h : Host α) (V : Vector α) :
    subset_impl_int h V [] = .ok V := by
  simp [subset_impl_int]

/-! ## The function `which_na` -/

theorem which_na_from_bounds (M : List Int) (k0 : Int) :
    ∀ k ∈ which_na_from M k0, k ≠ NA_INTEGER → k0 ≤ k ∧ k < k0 + (M.length : Int) := by
  induction M generalizing k0 with
  | nil => intro k hk; cases hk
  | cons m rest ih =>
    intro k hk hna
    have hrest : ∀ k ∈ which_na_from rest (k0 + 1), k ≠ NA_INTEGER →
        k0 ≤ k ∧ k < k0 + ((m :: rest).length : Int) := by
      intro k hk hna
      obtain ⟨h1, h2⟩ := ih (k0 + 1) k hk hna
      simp only [List.length_cons, Nat.cast_add, Nat.cast_one]
      omega
    unfold which_na_from at hk
    split_ifs at hk with h1 h2
    · rcases List.mem_cons.1 hk with hk | hk
      · exact absurd hk hna
      · exact hrest k hk hna
    · rcases List.mem_cons.1 hk with hk | hk
      · subst hk
        simp only [List.length_cons, Nat.cast_add, Nat.cast_one]
        omega
      · exact hrest k hk hna
    · exact hrest k hk hna

theorem which_na_from_length (M : List Int) (k0 : Int) :
    (which_na_from M k0).length = M.countP (fun m => decide (m = NA_LOGICAL ∨ m ≠ 0)) := by
  induction M generalizing k0 with
  | nil => rfl
  | cons m rest ih =>
    by_cases h1 : m = NA_LOGICAL
    · simp [which_na_from, h1, ih]
    · by_cases h2 : m = 0
      · subst h2
        simp [which_na_from, h1, ih]
      · simp [which_na_from, h1, h2, ih]

theorem which_na_from_increasing (M : List Int) (k0 : Int) :
    ((which_na_from M k0).filter (fun k => decide (k ≠ NA_INTEGER))).Pairwise (· < ·) := by
  induction M generalizing k0 with
  | nil => simp [which_na_from]
  | cons m rest ih =>
    unfold which_na_from
    split_ifs with h1 h2
    · simpa using ih (k0 + 1)
    · by_cases hk : k0 = NA_INTEGER
      · simpa [hk] using ih (NA_INTEGER + 1)
      · rw [List.filter_cons_of_pos (by simpa using hk), List.pairwise_cons]
        refine ⟨?_, ih (k0 + 1)⟩
        intro k hkm
        rw [List.mem_filter] at hkm
        have hne : k ≠ NA_INTEGER := by simpa using hkm.2
        have := (which_na_from_bounds rest (k0 + 1) k hkm.1 hne).1
        omega
    · exact ih (k0 + 1)

/-- C13: `which_na` gives the left-to-right scan that emits `NA_INTEGER` for a
missing entry, the zero-based position for a true entry and nothing for a false
one; its length is the number of entries that are true or missing; its
non-missing entries are strictly increasing and lie in `[0, n-1]`. -/
theorem which_na_scan (M : List Int) :
    which_na M = maskPositions M ∧
      (which_na M).length = M.countP (fun m => decide (m = NA_LOGICAL ∨ m ≠ 0)) ∧
      ((which_na M).filter (fun k => decide (k ≠ NA_INTEGER))).Pairwise (· < ·) ∧
      ∀ k ∈ which_na M, k ≠ NA_INTEGER → 0 ≤ k ∧ k ≤ (M.length : Int) - 1 := by
  refine ⟨which_na_eq_maskPositions M, which_na_from_length M 0,
    which_na_from_increasing M 0, ?_⟩
  intro k hk hna
  have := which_na_from_bounds M 0 k hk hna
  omega

/-- C15: with bounds checking enabled, `subset` on a logical index as long as
the vector returns a vector, never an "Index error", and the output has as many
elements as the mask has entries that are true or missing. -/
theorem subset_lgl_checked_succeeds {α ρ : Type} (h : Host α) (toInt : ρ → Int)
    (V : Vector α) (M : List Int) (_hb : h.boundsCheck = true) (hlen : M.length = V.size) :
    ∃ out, subset h toInt V (Index.lgl M) = .ok out ∧
      out.size = M.countP (fun m => decide (m = NA_LOGICAL ∨ m ≠ 0)) := by
  have hsz : ¬ V.size ≠ M.length := by simp [hlen]
  by_cases he : (which_na M).length = 0
  · refine ⟨Vector.empty, by simp [subset, subset_impl_lgl, hsz, he], ?_⟩
    rw [← which_na_from_length M 0]
    exact he.symm
  · have hne : which_na M ≠ [] := fun hc => he (by rw [hc]; rfl)
    have hr : ∀ xi ∈ which_na M, xi ≠ NA_INTEGER → 0 ≤ xi ∧ xi ≤ (V.size : Int) - 1 := by
      intro k hk hna
      have := which_na_from_bounds M 0 k hk hna
      omega
    have hint := subset_impl_int_inRange h V (which_na M) hne hr
    have hsub : subset h toInt V (Index.lgl M) = subset_impl_int h V (which_na M) := by
      simp only [subset, subset_impl_lgl, hsz, he, if_false]
    rw [hsub, hint]
    refine ⟨_, rfl, ?_⟩
    simp only [Vector.size, List.length_map]
    exact which_na_from_length M 0

/-- The statement of C15 at `V = [1, 2, 3, 4]`, mask `[TRUE, FALSE, NA, TRUE]`. -/
theorem subset_lgl_checked_succeeds_witness :
    ∃ out, subset (intHost true) (fun r : Int => r) ⟨[1, 2, 3, 4], none⟩
        (Index.lgl [1, 0, NA_LOGICAL, 1]) = .ok out ∧
      out.size = [1, 0, NA_LOGICAL, 1].countP (fun m => decide (m = NA_LOGICAL ∨ m ≠ 0)) :=
  subset_lgl_checked_succeeds (intHost true) (fun r : Int => r) ⟨[1, 2, 3, 4], none⟩
    [1, 0, NA_LOGICAL, 1] rfl rfl

/-! ## Composition of integer subsettings -/

theorem rawAt_map_inside {β γ : Type} (f : β → γ) (outside : Int → γ) (d : β) (I : List β)
    (j : Int) (h0 : 0 ≤ j) (h1 : j < (I.length : Int)) :
    rawAt outside (I.map f) j = f (I.getD j.toNat d) := by
  have hlt : j.toNat < I.length := by omega
  have h2 : j < ((I.map f).length : Int) := by simpa using h1
  have h := rawAt_inside outside (I.map f) j h0 h2
  rw [List.getElem?_map, List.getElem?_eq_getElem hlt, Option.map_some'] at h
  rw [← Option.some.inj h, List.getD_eq_getElem _ _ hlt]

theorem compose_pointwise {γ : Type} (f : Int → γ) (naγ : γ) (hf : f NA_INTEGER = naγ)
    (outside : Int → γ) (I : List Int) (j : Int)
    (hj : j ≠ NA_INTEGER → 0 ≤ j ∧ j ≤ (I.length : Int) - 1) :
    (if j = NA_INTEGER then naγ else rawAt outside (I.map f) j) =
      f (if j = NA_INTEGER then NA_INTEGER else I.getD j.toNat NA_INTEGER) := by
  by_cases hna : j = NA_INTEGER
  · simp [hna, hf]
  · obtain ⟨h0, h1⟩ := hj hna
    simp only [hna, if_false]
    exact rawAt_map_inside f outside NA_INTEGER I j h0 (by omega)

theorem composeIndex_inRange {α : Type} (V : Vector α) (I J : List Int)
    (hrI : ∀ xi ∈ I, xi ≠ NA_INTEGER → 0 ≤ xi ∧ xi ≤ (V.size : Int) - 1)
    (hrJ : ∀ j ∈ J, j ≠ NA_INTEGER → 0 ≤ j ∧ j ≤ (I.length : Int) - 1) :
    ∀ k ∈ composeIndex I J, k ≠ NA_INTEGER → 0 ≤ k ∧ k ≤ (V.size : Int) - 1 := by
  intro k hk hna
  unfold composeIndex at hk
  rw [List.mem_map] at hk
  obtain ⟨j, hjm, hjk⟩ := hk
  by_cases hj : j = NA_INTEGER
  · simp only [hj, if_true] at hjk
    exact absurd hjk.symm hna
  · simp only [hj, if_false] at hjk
    obtain ⟨h0, h1⟩ := hrJ j hjm hj
    have hlt : j.toNat < I.length := by omega
    rw [List.getD_eq_getElem _ _ hlt] at hjk
    exact hrI k (hjk ▸ List.getElem_mem hlt) hna

/-- C16: with bounds checking enabled, for non-empty integer indices `I` in
range for `V` and `J` in range for `I`, subsetting `V` by `I` and the result by
`J` succeeds and gives the same vector, elements and names, as subsetting `V`
by `K`, where `K[m]` is missing when `J[m]` is missing and `I[J[m]]`
otherwise. -/
theorem subset_impl_int_compose {α : Type} (h : Host α) (V : Vector α) (I J : List Int)
    (_hb : h.boundsCheck = true) (hI : I ≠ []) (hJ : J ≠ [])
    (hrI : ∀ xi ∈ I, xi ≠ NA_INTEGER → 0 ≤ xi ∧ xi ≤ (V.size : Int) - 1)
    (hrJ : ∀ j ∈ J, j ≠ NA_INTEGER → 0 ≤ j ∧ j ≤ (I.length : Int) - 1) :
    ∃ W out, subset_impl_int h V I = .ok W ∧ subset_impl_int h W J = .ok out ∧
      subset_impl_int h V (composeIndex I J) = .ok out := by
  have hW := subset_impl_int_inRange h V I hI hrI
  have hK : composeIndex I J ≠ [] := by
    unfold composeIndex
    simpa using hJ
  have hVK := subset_impl_int_inRange h V _ hK (composeIndex_inRange V I J hrI hrJ)
  refine ⟨_, _, hW, ?_, hVK⟩
  · have hrJ2 : ∀ j ∈ J, j ≠ NA_INTEGER → 0 ≤ j ∧
        j ≤ ((Vector.mk
          (I.map (fun xi => if xi = NA_INTEGER then h.na else rawAt h.eltOutside V.data xi))
          (V.names.map (fun nm => I.map (fun xi =>
            if xi = NA_INTEGER then NA_STRING else rawAt h.nameOutside nm xi)))).size : Int) - 1 := by
      intro j hj hna
      simpa [Vector.size] using hrJ j hj hna
    rw [subset_impl_int_inRange h _ J hJ hrJ2]
    congr 2
    · unfold composeIndex
      rw [List.map_map]
      apply List.map_congr_left
      intro j hj
      exact compose_pointwise _ h.na (by simp) h.eltOutside I j (hrJ j hj)
    · cases V.names with
      | none => rfl
      | some nm =>
        simp only [Option.map_some', Option.some.injEq]
        unfold composeIndex
        rw [List.map_map]
        apply List.map_congr_left
        intro j hj
        exact compose_pointwise _ NA_STRING (by simp) h.nameOutside I j (hrJ j hj)

/-- The statement of C16 at `V = [10, 20, 30]` with names `["x", "y", "z"]`,
`I = [2, NA, 0]`, `J = [1, 2, NA, 0]`. -/
theorem subset_impl_int_compose_witness :
    ∃ W out, subset_impl_int (intHost true)
          ⟨[10, 20, 30], some [some "x", some "y", some "z"]⟩ [2, NA_INTEGER, 0] = .ok W ∧
      subset_impl_int (intHost true) W [1, 2, NA_INTEGER, 0] = .ok out ∧
      subset_impl_int (intHost true) ⟨[10, 20, 30], some [some "x", some "y", some "z"]⟩
          (composeIndex [2, NA_INTEGER, 0] [1, 2, NA_INTEGER, 0]) = .ok out :=
  subset_impl_int_compose (intHost true) ⟨[10, 20, 30], some [some "x", some "y", some "z"]⟩
    [2, NA_INTEGER, 0] [1, 2, NA_INTEGER, 0] rfl (by decide) (by decide) (by decide) (by decide)

/-! ## Character subsetting when every label is among the names -/

theorem firstMatchFrom_mem (q : CHARSXP) (N : List CHARSXP) (k : Int) (hq : q ∈ N) :
    firstMatchFrom q N k = k + Int.ofNat (N.findIdx (fun t => decide (t = q))) := by
  induction N generalizing k with
  | nil => cases hq
  | cons t rest ih =>
    by_cases ht : t = q
    · simp [firstMatchFrom, ht, List.findIdx_cons]
    · have hr : q ∈ rest := by
        rcases List.mem_cons.1 hq with hc | hc
        · exact absurd hc.symm ht
        · exact hc
      rw [firstMatchFrom, if_neg ht, ih (k + 1) hr, List.findIdx_cons]
      simp only [ht, decide_False, cond_false, Int.ofNat_eq_coe, Nat.cast_add, Nat.cast_one]
      omega

theorem findIdx_lt_of_mem (q : CHARSXP) (N : List CHARSXP) (hq : q ∈ N) :
    N.findIdx (fun t => decide (t = q)) < N.length :=
  List.findIdx_lt_length_of_exists ⟨q, hq, by simp⟩

theorem range_map_rawAt {β γ : Type} (F : β → γ) (outside : Int → β) (l : List β) :
    (List.range l.length).map (fun (i : Nat) => F (rawAt outside l (i : Int))) = l.map F := by
  apply List.ext_getElem
  · simp
  · intro i h1 h2
    have hi : i < l.length := by simpa using h2
    simp only [List.getElem_map, List.getElem_range]
    rw [rawAt_natCast outside l i hi]

theorem matched_idxm1 (C N : List CHARSXP) (hlen : N.length ≤ 2147483647)
    (hall : ∀ q ∈ C, q ∈ N) :
    (matchFirst C N).map (fun v => sub32 v 1) = firstPositions C N := by
  unfold matchFirst firstPositions
  rw [List.map_map]
  apply List.map_congr_left
  intro q hq
  have hlt := findIdx_lt_of_mem q N (hall q hq)
  simp only [Function.comp_apply, firstMatchFrom_mem q N 1 (hall q hq), sub32, Int.ofNat_eq_coe]
  omega

theorem firstPositions_inRange {α : Type} (V : Vector α) (C N : List CHARSXP)
    (hwf : N.length = V.size) (hall : ∀ q ∈ C, q ∈ N) :
    ∀ p ∈ firstPositions C N, p ≠ NA_INTEGER ∧ 0 ≤ p ∧ p ≤ (V.size : Int) - 1 := by
  intro p hp
  unfold firstPositions at hp
  rw [List.mem_map] at hp
  obtain ⟨q, hq, rfl⟩ := hp
  have hlt := findIdx_lt_of_mem q N (hall q hq)
  refine ⟨NA_INTEGER_ne_natCast _, ?_, ?_⟩
  · simp
  · simp only [Int.ofNat_eq_coe]
    omega

/-- C19: with bounds checking enabled and `match` as the spec describes it, for
a vector whose names `N` are as long as the vector and a non-empty character
index whose labels all occur in `N`, every `idx[i] - 1` lies in `[0, L-1]`,
`subset` returns a vector, and it is the vector that `subset` returns on the
integer index of the zero-based first positions of the labels in `N`. -/
theorem subset_str_matched_eq_subset_int {α ρ : Type} (h : Host α) (toInt : ρ → Int)
    (V : Vector α) (N C : List CHARSXP) (_hb : h.boundsCheck = true)
    (hm : h.lookup = matchFirst) (hn : V.names = some N) (hwf : N.length = V.size)
    (hsz : V.size ≤ 2147483647) (hC : C ≠ []) (hall : ∀ q ∈ C, q ∈ N) :
    (∀ p ∈ (h.lookup C N).map (fun v => sub32 v 1), 0 ≤ p ∧ p ≤ (V.size : Int) - 1) ∧
      ∃ out, subset h toInt V (Index.str C) = .ok out ∧
        subset h toInt V (Index.int (firstPositions C N)) = .ok out := by
  have hidx := matched_idxm1 C N (by omega) hall
  have hrange := firstPositions_inRange V C N hwf hall
  have hr : ∀ p ∈ firstPositions C N, p ≠ NA_INTEGER → 0 ≤ p ∧ p ≤ (V.size : Int) - 1 :=
    fun p hp _ => (hrange p hp).2
  have hP : firstPositions C N ≠ [] := by
    unfold firstPositions
    simpa using hC
  have hint := subset_impl_int_inRange h V (firstPositions C N) hP hr
  refine ⟨?_, _, ?_, hint⟩
  · intro p hp
    rw [hm, hidx] at hp
    exact (hrange p hp).2
  · have hn0 : ¬ (firstPositions C N).length = 0 := by simpa using hP
    have hnames : (List.range (firstPositions C N).length).map
          (fun (i : Nat) => rawAt h.nameOutside N
            (sub32 (rawAt h.idxOutside (matchFirst C N) (i : Int)) 1)) =
        (firstPositions C N).map
          (fun xi => if xi = NA_INTEGER then NA_STRING else rawAt h.nameOutside N xi) := by
      have hl : (firstPositions C N).length = (matchFirst C N).length := by
        simp [firstPositions, matchFirst]
      rw [hl, range_map_rawAt (fun v => rawAt h.nameOutside N (sub32 v 1)) h.idxOutside
        (matchFirst C N), ← hidx, List.map_map]
      apply List.map_congr_left
      intro v hv
      have hmem : sub32 v 1 ∈ firstPositions C N := by
        rw [← hidx]
        exact List.mem_map.2 ⟨v, hv, rfl⟩
      simp [(hrange _ hmem).1]
    simp only [subset, subset_impl_str, hn, hm, hidx, hint, Vector.size, List.length_map, hn0,
      if_false, Option.map_some', hnames]

/-- The statement of C19 at `V = ["a", "b", "c"]` with names `["x", "y", "x"]`,
index `["y", "x"]`. -/
theorem subset_str_matched_eq_subset_int_witness :
    (∀ p ∈ ((strHost true).lookup [some "y", some "x"] [some "x", some "y", some "x"]).map
        (fun v => sub32 v 1),
        0 ≤ p ∧ p ≤ (((⟨[some "a", some "b", some "c"],
          some [some "x", some "y", some "x"]⟩ : Vector CHARSXP).size : Nat) : Int) - 1) ∧
      ∃ out, subset (strHost true) (fun r : Int => r)
            ⟨[some "a", some "b", some "c"], some [some "x", some "y", some "x"]⟩
            (Index.str [some "y", some "x"]) = .ok out ∧
        subset (strHost true) (fun r : Int => r)
            ⟨[some "a", some "b", some "c"], some [some "x", some "y", some "x"]⟩
            (Index.int (firstPositions [some "y", some "x"] [some "x", some "y", some "x"]))
          = .ok out :=
  subset_str_matched_eq_subset_int (strHost true) (fun r : Int => r)
    ⟨[some "a", some "b", some "c"], some [some "x", some "y", some "x"]⟩
    [some "x", some "y", some "x"] [some "y", some "x"] rfl rfl rfl rfl (by decide)
    (by decide) (by decide)

/-! ## Names when a label is not matched, and names without bounds checking -/

/-- C12, at names `["x", "y", "z"]` queried with `["z", "w"]`: with bounds
checking the character `subset_impl` stops and returns no names at all; without
it the second name is what an unchecked read of `names[INT_MAX]` gives, not
`NA_STRING`. -/
theorem subset_str_unmatched_names_example :
    subset (intHost true) (fun r : Int => r) ⟨[1, 2, 3], some [some "x", some "y", some "z"]⟩
        (Index.str [some "z", some "w"]) = .error .indexAbove ∧
      subset (intHost false) (fun r : Int => r) ⟨[1, 2, 3], some [some "x", some "y", some "z"]⟩
        (Index.str [some "z", some "w"])
        = .ok ⟨[3, (intHost false).eltOutside 2147483647],
            some [some "z", (intHost false).nameOutside 2147483647]⟩ := by
  decide

theorem elementLoop_unchecked {α : Type} (h : Host α) (V : Vector α) (x : List Int)
    (hb : h.boundsCheck = false) :
    elementLoop h V x =
      .ok (x.map (fun xi => if xi = NA_INTEGER then h.na else rawAt h.eltOutside V.data xi)) := by
  induction x with
  | nil => rfl
  | cons xi rest ih =>
    by_cases hna : xi = NA_INTEGER
    · simp [elementLoop, elementStep, hna, ih]
    · simp [elementLoop, elementStep, hna, hb, ih]

/-- Without bounds checking, the names loop of the integer `subset_impl` gives a
non-missing index above `L-1` the result of the unchecked read `thisnames[x[i]]`
and leaves the cell of a negative index as `no_init` made it; neither is set to
`NA_STRING`. -/
theorem subset_impl_int_unchecked_names {α : Type} (h : Host α) (V : Vector α)
    (nm : List CHARSXP) (x : List Int) (hb : h.boundsCheck = false)
    (hn : V.names = some nm) (hwf : nm.length = V.size) (hne : x ≠ []) :
    ∃ out onm, subset_impl_int h V x = .ok out ∧ out.names = some onm ∧
      ∀ i (hi : i < x.length), x[i] ≠ NA_INTEGER →
        (x[i] > (V.size : Int) - 1 → onm[i]? = some (h.nameOutside x[i])) ∧
        (x[i] < 0 → onm[i]? = some (h.nameNoInit i)) := by
  have hlen : ¬ x.length = 0 := by simpa using hne
  have hsub : subset_impl_int h V x =
      .ok ⟨x.map (fun xi => if xi = NA_INTEGER then h.na else rawAt h.eltOutside V.data xi),
        some (nameLoop h V nm 0 x)⟩ := by
    simp only [subset_impl_int, hlen, if_false, elementLoop_unchecked h V x hb, hn]
  refine ⟨_, nameLoop h V nm 0 x, hsub, rfl, ?_⟩
  · intro i hi hna
    rw [nameLoop_getElem?, List.getElem?_eq_getElem hi, Option.map_some', Nat.zero_add]
    constructor
    · intro hgt
      have h0 : x[i] ≥ 0 := by omega
      have h1 : ¬ (0 ≤ x[i] ∧ x[i] < (nm.length : Int)) := by omega
      have h2 : rawAt h.nameOutside nm x[i] = h.nameOutside x[i] := by
        unfold rawAt
        rw [if_neg h1]
      simp [nameStep, hna, hb, h0, h2]
    · intro hlt
      have h0 : ¬ x[i] ≥ 0 := by omega
      simp [nameStep, hna, hb, h0]

/-- C14, at `V = [10, 20, 30]` with names `["x", "y", "z"]` and the index
`[0, 5, -1]` without bounds checking: the name for `5` is what the unchecked
read `thisnames[5]` gives and the name for `-1` is the unassigned `no_init`
cell; neither is `NA_STRING`. -/
theorem subset_impl_int_unchecked_names_example :
    subset_impl_int (intHost false) ⟨[10, 20, 30], some [some "x", some "y", some "z"]⟩
        [0, 5, -1]
      = .ok ⟨[10, (intHost false).eltOutside 5, (intHost false).eltOutside (-1)],
          some [some "x", (intHost false).nameOutside 5, (intHost false).nameNoInit 2]⟩ ∧
      (intHost false).nameOutside 5 ≠ NA_STRING ∧ (intHost false).nameNoInit 2 ≠ NA_STRING := by
  decide

end Rcpp
